import Mathlib

/-!
Shallow embedding of `FreeSurfaceCalculator.py` (OpenFOAMTools).

The repository's core logic is the `_calculate` method of the
`FreeSurfaceCalculator` class: for each timestep it scans a volume-fraction
profile `alpha` for the first adjacent pair with `alpha[i] > 0.5` and
`alpha[i+1] < 0.5`, then calls `np.interp(0.5, [alpha[i], alpha[i+1]],
[y[i], y[i+1]])`, and appends `[time, ys]` to the instance list
`self._data`.  `writeCsvOutput` re-runs `_calculate`, fixes the output file
name (adding `.csv` when the last four characters are not `.csv`) and
writes one `"{}, {}\n"`-formatted line per accumulated row.

Numbers are embedded as rationals, Python strings as `List Char`, Python
runtime failures (out-of-range indexing, use of an unbound loop variable)
as explicit error results.
-/

namespace FreeSurface

/-- Error kinds: `indexError` and `nameError` model the Python exceptions the
source can raise (IndexError from out-of-range indexing, NameError from the
loop variable being unbound when the loop body never ran); `noCrossingFound`
and `invalidInput` are the error kinds named by the specification's
`findCrossing` contract, needed to state the error-handling claims. -/
inductive Err where
  | indexError
  | nameError
  | noCrossingFound
  | invalidInput
  deriving DecidableEq

/-- Result of a Python computation: a value, or a raised error. -/
inductive Res (α : Type) where
  | ok (v : α)
  | err (e : Err)
  deriving DecidableEq

/-- Models `numpy.interp` at a two-element sample table, i.e.
`np.interp(x, [a, b], [c, d])`, following numpy's compiled implementation:
a key above the last table entry returns the last value, a key below the
first entry returns the first value (numpy checks these two edge cases first,
in this order, assuming an ascending table), otherwise binary search
selects the bracket and interpolates linearly, with an exact hit on a table
entry returning that entry's value. -/
def interp2 (x a b c d : ℚ) : ℚ :=
  if b < x then d
  else if x < a then c
  else if b ≤ x then d
  else if a = x then c
  else c + (x - a) * (d - c) / (b - a)

/-- The threshold `0.5` hard-coded in `_calculate`, as the exact rational
one half (the float `0.5` is exact). -/
def threshold : ℚ := mkRat 1 2

/-- The crossing scan of `_calculate`, modelling the Python loop

    for i in range(alpha.size):
        if alpha[i] > 0.5 and alpha[i+1] < 0.5:
            break

`i` is the current index and the second argument the number of iterations
left (`alpha.size - i`).  A `break` yields `Res.ok i`; reading `alpha[i+1]`
out of range yields `Res.err .indexError` (Python short-circuits `and`, so
`alpha[i+1]` is only read when `alpha[i] > 0.5`); a loop that finishes
leaves the loop variable at its last value `alpha.size - 1`. -/
def scanLoop (alpha : List ℚ) : ℕ → ℕ → Res ℕ
  | _, 0 => Res.ok (alpha.length - 1)
  | i, fuel + 1 =>
    match alpha.get? i with
    | none => Res.ok (alpha.length - 1)
    | some ai =>
      if threshold < ai then
        match alpha.get? (i + 1) with
        | none => Res.err Err.indexError
        | some ai1 =>
          if ai1 < threshold then Res.ok i
          else scanLoop alpha (i + 1) fuel
      else scanLoop alpha (i + 1) fuel

/-- The full scan over `alpha`: the loop starting at `i = 0` with
`alpha.size` iterations. -/
def scan (alpha : List ℚ) : Res ℕ := scanLoop alpha 0 alpha.length

/-- The per-timestep core of `_calculate`: run the scan, then evaluate
`np.interp(0.5, [alpha[i], alpha[i+1]], [y[i], y[i+1]])` at the final loop
index `i`.  An empty `alpha` leaves the loop variable unbound (Python
NameError); any out-of-range read in the interp arguments is an IndexError. -/
def findSurface (y alpha : List ℚ) : Res ℚ :=
  if alpha.length = 0 then Res.err Err.nameError
  else
    match scan alpha with
    | Res.err e => Res.err e
    | Res.ok i =>
      match alpha.get? i, alpha.get? (i + 1), y.get? i, y.get? (i + 1) with
      | some a0, some a1, some c0, some c1 => Res.ok (interp2 threshold a0 a1 c0 c1)
      | _, _, _, _ => Res.err Err.indexError

/-- The source's break condition at index `i`: both samples in range,
`alpha[i] > 0.5` and `alpha[i+1] < 0.5` (a strict descending crossing). -/
def crossAt (alpha : List ℚ) (i : ℕ) : Prop :=
  i + 1 < alpha.length ∧ threshold < alpha.getD i 0 ∧ alpha.getD (i + 1) 0 < threshold

instance (alpha : List ℚ) (i : ℕ) : Decidable (crossAt alpha i) := by
  unfold crossAt
  infer_instance

/-- The characters of the string `".csv"`. -/
def csvExt : List Char := ['.', 'c', 's', 'v']

/-- The output-name fixup of `writeCsvOutput`, Python

    if not outputCsvFile[-4:] == '.csv':
        outputCsvFile += '.csv'

`s[-4:]` is the last four characters of `s` (the whole string when it is
shorter), i.e. `s.drop (s.length - 4)`. -/
def fixName (s : List Char) : List Char :=
  if s.drop (s.length - 4) = csvExt then s else s ++ csvExt

/-- One output line, Python `'{}, {}\n'.format(*row)` on a two-field row;
both fields are kept as text. -/
def renderRow (r : List Char × List Char) : List Char :=
  r.1 ++ [',', ' '] ++ r.2 ++ ['\n']

/-- The write loop of `writeCsvOutput`:

    for row in self._data:
        output.write('{}, {}\n'.format(*row))

accumulating the characters written to the (freshly truncated) file. -/
def writeRows (rows : List (List Char × List Char)) : List Char :=
  rows.foldl (fun acc r => acc ++ renderRow r) []

/-- The accumulation of `_calculate`: each timestep's `[time, ys]` row is
appended to the instance list `self._data`.  `results` are the rows this
pass computes (in directory-discovery order) and `data` the list's prior
contents. -/
def calculate (results : List (List Char × List Char))
    (data : List (List Char × List Char)) : List (List Char × List Char) :=
  results.foldl (fun d r => d ++ [r]) data

/-- `writeCsvOutput`: re-runs `_calculate` (appending this pass's rows to the
instance state), fixes the file name, opens the file with mode `w` and writes
every accumulated row.  Returns the new instance state together with the
name and content of the written file. -/
def writeCsvOutput (results : List (List Char × List Char)) (name : List Char)
    (data : List (List Char × List Char)) :
    List (List Char × List Char) × (List Char × List Char) :=
  let data2 := calculate results data
  (data2, (fixName name, writeRows data2))

/-- The characters of the string `".xy"`. -/
def xyExt : List Char := ['.', 'x', 'y']

/-- The data-file selection loop of `_calculate`:

    fileName = None
    for file in files:
        if file.endswith('.xy') and not file.startswith('.'):
            fileName = file
            break
-/
def chooseDataFile (files : List (List Char)) : Option (List Char) :=
  files.find? (fun f => xyExt.isSuffixOf f && !(['.'].isPrefixOf f))

/-! ### Lemmas about the crossing scan -/

theorem get?_eq_some_getD {l : List ℚ} : ∀ {i : ℕ}, i < l.length →
    l.get? i = some (l.getD i 0) := by
  induction l with
  | nil =>
    intro i h
    simp at h
  | cons a l ih =>
    intro i h
    cases i with
    | zero => rfl
    | succ i => exact ih (by simpa using h)

theorem scanLoop_eq_of_first {alpha : List ℚ} {j : ℕ} (hj : crossAt alpha j) :
    ∀ fuel i, i ≤ j → j < i + fuel →
      (∀ k, i ≤ k → k < j → ¬ crossAt alpha k) →
      scanLoop alpha i fuel = Res.ok j := by
  obtain ⟨hjlen, hja, hjb⟩ := hj
  intro fuel
  induction fuel with
  | zero =>
    intro i hij hlt _
    omega
  | succ fuel ih =>
    intro i hij hlt hmin
    have hi : i < alpha.length := by omega
    rcases Nat.eq_or_lt_of_le hij with rfl | hlt'
    · rw [scanLoop, get?_eq_some_getD hi]
      simp only [if_pos hja, get?_eq_some_getD hjlen, if_pos hjb]
    · have hcross : ¬ crossAt alpha i := hmin i le_rfl hlt'
      have hrec : scanLoop alpha (i + 1) fuel = Res.ok j :=
        ih (i + 1) hlt' (by omega) (fun k hk hk2 => hmin k (by omega) hk2)
      rw [scanLoop, get?_eq_some_getD hi]
      by_cases ha : threshold < alpha.getD i 0
      · have hi1 : i + 1 < alpha.length := by omega
        have hb : ¬ alpha.getD (i + 1) 0 < threshold := fun hb =>
          hcross ⟨hi1, ha, hb⟩
        simp only [if_pos ha, get?_eq_some_getD hi1, if_neg hb, hrec]
      · simp only [if_neg ha, hrec]

theorem scan_eq_of_first {alpha : List ℚ} {j : ℕ} (hj : crossAt alpha j)
    (hmin : ∀ k, k < j → ¬ crossAt alpha k) : scan alpha = Res.ok j :=
  scanLoop_eq_of_first hj alpha.length 0 (Nat.zero_le j)
    (by have := hj.1; omega) (fun k _ hk2 => hmin k hk2)

theorem scan_min {alpha : List ℚ} {j : ℕ} (h : scan alpha = Res.ok j)
    (hj : crossAt alpha j) : ∀ k, k < j → ¬ crossAt alpha k := by
  have hex : ∃ i, crossAt alpha i := ⟨j, hj⟩
  have hm : crossAt alpha (Nat.find hex) := Nat.find_spec hex
  have hmin : ∀ k, k < Nat.find hex → ¬ crossAt alpha k :=
    fun k hk => Nat.find_min hex hk
  have hsm : scan alpha = Res.ok (Nat.find hex) := scan_eq_of_first hm hmin
  have hjm : j = Nat.find hex := by
    rw [h] at hsm
    injection hsm
  rw [hjm]
  exact hmin

/-! ### The claims -/

/-- C1: the spec claims that on a strict descending crossing the extractor
returns the interpolated coordinate, in particular `1.5` on
`coordinate = [0,1,2,3]`, `fraction = [0.9,0.6,0.4,0.1]`.  The code instead
returns `2`, the coordinate after the crossing: `np.interp` is called with
the decreasing sample table `[0.6, 0.4]`, and numpy (which requires an
ascending table) sees the query `0.5` above the last table entry `0.4` and
returns the last value `coordinate[i+1]`. -/
theorem c1_crossing_returns_right_endpoint :
    findSurface [0, 1, 2, 3] [mkRat 9 10, mkRat 3 5, mkRat 2 5, mkRat 1 10] =
      Res.ok 2 ∧
    findSurface [0, 1, 2, 3] [mkRat 9 10, mkRat 3 5, mkRat 2 5, mkRat 1 10] ≠
      Res.ok (mkRat 3 2) := by
  decide

/-- C2: the spec claims inputs with no straddling pair fail with
`NoCrossingFound`.  The code has no such error: with all fractions above the
threshold the scan itself reads `fraction[N]` out of range, and with all
fractions below it the loop finishes and `np.interp`'s arguments read
`fraction[N]` out of range; both fail with a Python IndexError. -/
theorem c2_no_crossing_is_index_error :
    findSurface [0, 1] [mkRat 9 10, mkRat 4 5] = Res.err Err.indexError ∧
    findSurface [0, 1] [mkRat 1 5, mkRat 1 10] = Res.err Err.indexError ∧
    findSurface [0, 1] [mkRat 9 10, mkRat 4 5] ≠ Res.err Err.noCrossingFound ∧
    findSurface [0, 1] [mkRat 1 5, mkRat 1 10] ≠ Res.err Err.noCrossingFound := by
  decide

/-- C3: the spec mandates that the scan never read past the last element
(loop bounded to `N-2`).  The source loop runs `i` up to `N-1` and, when
`fraction[N-1] > 0.5`, reads `fraction[N]`: on `fraction = [0.9, 0.8]` the
scan itself raises IndexError. -/
theorem c3_scan_reads_past_end :
    scan [mkRat 9 10, mkRat 4 5] = Res.err Err.indexError := by
  decide

/-- C4: when a strict descending crossing exists, the extractor uses only the
first qualifying pair (lowest index `j`) for the interpolation call: the
result is `np.interp` applied to the two samples at `j` and `j+1`, whatever
the sequences contain beyond `j+1`. -/
theorem c4_first_crossing_used (y alpha : List ℚ) (j : ℕ)
    (hc : crossAt alpha j) (hmin : ∀ k, k < j → ¬ crossAt alpha k)
    (hy : j + 1 < y.length) :
    findSurface y alpha =
      Res.ok (interp2 threshold (alpha.getD j 0) (alpha.getD (j + 1) 0)
        (y.getD j 0) (y.getD (j + 1) 0)) := by
  have hscan := scan_eq_of_first hc hmin
  obtain ⟨hjlen, -, -⟩ := hc
  rw [findSurface, if_neg (by omega : ¬ alpha.length = 0), hscan]
  simp only [get?_eq_some_getD (show j < alpha.length by omega),
    get?_eq_some_getD hjlen, get?_eq_some_getD (show j < y.length by omega),
    get?_eq_some_getD hy]

theorem c4_first_crossing_used_witness :
    crossAt [mkRat 9 10, mkRat 2 5, mkRat 9 10, mkRat 2 5] 0 ∧
    findSurface [0, 10, 20, 30] [mkRat 9 10, mkRat 2 5, mkRat 9 10, mkRat 2 5] =
      Res.ok (interp2 threshold (mkRat 9 10) (mkRat 2 5) 0 10) :=
  ⟨by decide,
    c4_first_crossing_used [0, 10, 20, 30]
      [mkRat 9 10, mkRat 2 5, mkRat 9 10, mkRat 2 5] 0 (by decide)
      (fun k hk => absurd hk (Nat.not_lt_zero k)) (by decide)⟩

/-- C5: a pair is selected by the scan exactly when it is the first adjacent
pair with `fraction[i] > 0.5` and `fraction[i+1] < 0.5` (the strict
descending condition `crossAt`); in particular an input with no descending
pair — e.g. only an ascending crossing — selects nothing. -/
theorem c5_selected_iff_first_descending (alpha : List ℚ) (j : ℕ) :
    (scan alpha = Res.ok j ∧ crossAt alpha j) ↔
      (crossAt alpha j ∧ ∀ k, k < j → ¬ crossAt alpha k) := by
  constructor
  · rintro ⟨hs, hc⟩
    exact ⟨hc, scan_min hs hc⟩
  · rintro ⟨hc, hmin⟩
    exact ⟨scan_eq_of_first hc hmin, hc⟩

theorem c5_selected_iff_first_descending_witness :
    scan [mkRat 9 10, mkRat 2 5] = Res.ok 0 ∧ crossAt [mkRat 9 10, mkRat 2 5] 0 :=
  (c5_selected_iff_first_descending [mkRat 9 10, mkRat 2 5] 0).mpr
    ⟨by decide, fun k hk => absurd hk (Nat.not_lt_zero k)⟩

/-- C6: the spec claims mismatched-length or length-<2 inputs fail with
`InvalidInput` before any interpolation.  The code performs no validation:
on `coordinate = [0,1,2]`, `fraction = [0.9,0.4]` (mismatched lengths) it
happily interpolates and returns `1`, and on the length-1 input
`coordinate = [0]`, `fraction = [0.9]` it raises IndexError instead. -/
theorem c6_no_input_validation :
    findSurface [0, 1, 2] [mkRat 9 10, mkRat 2 5] = Res.ok 1 ∧
    findSurface [0] [mkRat 9 10] = Res.err Err.indexError ∧
    findSurface [0] [mkRat 9 10] ≠ Res.err Err.invalidInput := by
  decide

/-- C7: the spec claims that an exact threshold hit `fraction[i] = 0.5`
returns `coordinate[i]` with the division guarded.  The scan's strict
comparisons skip the exact hit, so on `coordinate = [0,1,2]`,
`fraction = [0.6,0.5,0.4]` the loop finds no pair, finishes at `i = N-1`,
and the interp arguments read `fraction[N]`: a Python IndexError instead of
returning `coordinate[1] = 1`. -/
theorem c7_exact_threshold_is_index_error :
    findSurface [0, 1, 2] [mkRat 3 5, mkRat 1 2, mkRat 2 5] =
      Res.err Err.indexError ∧
    findSurface [0, 1, 2] [mkRat 3 5, mkRat 1 2, mkRat 2 5] ≠ Res.ok 1 := by
  decide

/-! ### Lemmas about the writer and the data-file selection -/

theorem foldl_write (rows : List (List Char × List Char)) :
    ∀ acc, rows.foldl (fun a r => a ++ renderRow r) acc =
      acc ++ (rows.map renderRow).flatten := by
  induction rows with
  | nil =>
    intro acc
    simp
  | cons r rows ih =>
    intro acc
    simp [ih, List.append_assoc]

theorem calculate_eq (results : List (List Char × List Char)) :
    ∀ data, calculate results data = data ++ results := by
  induction results with
  | nil =>
    intro d
    simp [calculate]
  | cons r rs ih =>
    intro d
    have hstep : calculate (r :: rs) d = calculate rs (d ++ [r]) := rfl
    rw [hstep, ih]
    simp

theorem append_csv_ne (s : List Char) : s ++ csvExt ≠ s := by
  intro h
  have hlen := congrArg List.length h
  simp [csvExt] at hlen

theorem fixName_of_suffix {s : List Char} (h : ∃ t, s = t ++ csvExt) :
    fixName s = s := by
  obtain ⟨t, rfl⟩ := h
  have hlen : (t ++ csvExt).length - 4 = t.length := by simp [csvExt]
  rw [fixName, if_pos]
  rw [hlen, List.drop_left]

theorem fixName_of_not_suffix {s : List Char} (h : ¬ ∃ t, s = t ++ csvExt) :
    fixName s = s ++ csvExt := by
  rw [fixName, if_neg]
  intro hd
  refine h ⟨s.take (s.length - 4), ?_⟩
  rw [← hd]
  exact (List.take_append_drop _ s).symm

theorem find?_filter {α : Type} (p q : α → Bool) :
    ∀ l : List α, (l.filter q).find? p = l.find? (fun a => p a && q a) := by
  intro l
  induction l with
  | nil => rfl
  | cons a l ih =>
    by_cases hq : q a
    · rw [List.filter_cons_of_pos hq]
      by_cases hp : p a
      · rw [List.find?_cons_of_pos _ hp, List.find?_cons_of_pos]
        simp [hp, hq]
      · rw [List.find?_cons_of_neg _ hp, List.find?_cons_of_neg, ih]
        simp [hp]
    · rw [List.filter_cons_of_neg hq, ih, List.find?_cons_of_neg]
      simp [hq]

/-- C8: the writer emits one `label, value` line per accumulated row
(comma-plus-space delimiter, newline termination via `renderRow`, no header)
in exactly the received order, and the `.csv` extension is appended to the
target name exactly when the name does not already end in `.csv`. -/
theorem c8_csv_writer (rows : List (List Char × List Char)) (name : List Char) :
    writeRows rows = (rows.map renderRow).flatten ∧
    (fixName name = name ↔ ∃ t, name = t ++ csvExt) ∧
    (fixName name = name ++ csvExt ↔ ¬ ∃ t, name = t ++ csvExt) := by
  refine ⟨by simpa using foldl_write rows [], ⟨?_, fixName_of_suffix⟩,
    ⟨?_, fixName_of_not_suffix⟩⟩
  · intro hfix
    by_contra h
    have hne := fixName_of_not_suffix h
    rw [hfix] at hne
    exact append_csv_ne name hne.symm
  · intro hfix h
    have heq := fixName_of_suffix h
    rw [hfix] at heq
    exact append_csv_ne name heq

/-- C9: `writeCsvOutput` re-runs the extraction pass and appends its rows to
the instance's `_data` list without clearing it, so a second call on the
same instance writes a file in which every row of the pass appears twice. -/
theorem c9_second_write_duplicates (results : List (List Char × List Char))
    (name : List Char) :
    (writeCsvOutput results name ((writeCsvOutput results name []).1)).1 =
      results ++ results ∧
    (writeCsvOutput results name ((writeCsvOutput results name []).1)).2.2 =
      writeRows (results ++ results) ∧
    ∀ r, ((writeCsvOutput results name
        ((writeCsvOutput results name []).1)).1).count r =
      2 * results.count r := by
  have h1 : (writeCsvOutput results name []).1 = results := by
    simp [writeCsvOutput, calculate_eq]
  have h2 : (writeCsvOutput results name results).1 = results ++ results := by
    simp [writeCsvOutput, calculate_eq]
  refine ⟨by rw [h1]; exact h2, by rw [h1]; simp [writeCsvOutput, calculate_eq],
    ?_⟩
  intro r
  rw [h1, h2]
  rw [List.count_append]
  omega

/-- C10: a hidden file (name starting with `.`) is never selected as the
timestep's data file, even when it ends in `.xy`; the selected file is the
first file in directory-listing order, among the non-hidden files, whose
name ends in `.xy`. -/
theorem c10_data_file_selection (files : List (List Char)) :
    (∀ f, chooseDataFile files = some f →
      (¬ ∃ t, f = '.' :: t) ∧ ∃ t, f = t ++ xyExt) ∧
    chooseDataFile files =
      (files.filter (fun f => !(['.'].isPrefixOf f))).find?
        (fun f => xyExt.isSuffixOf f) := by
  constructor
  · intro f hf
    have hp := List.find?_some hf
    rw [Bool.and_eq_true] at hp
    obtain ⟨hsuf, hpre⟩ := hp
    constructor
    · rintro ⟨t, rfl⟩
      rw [Bool.not_eq_true'] at hpre
      have hyes : List.isPrefixOf ['.'] ('.' :: t) = true :=
        ( List.isPrefixOf_iff_prefix).mpr ⟨t, rfl⟩
      rw [hyes] at hpre
      cases hpre
    · obtain ⟨t, ht⟩ := ( List.isSuffixOf_iff_suffix).mp hsuf
      exact ⟨t, ht.symm⟩
  · exact (find?_filter _ _ files).symm

theorem c10_data_file_selection_witness :
    (¬ ∃ t, (['a', '.', 'x', 'y'] : List Char) = '.' :: t) ∧
    ∃ t, (['a', '.', 'x', 'y'] : List Char) = t ++ xyExt :=
  (c10_data_file_selection [['.', 'h', '.', 'x', 'y'], ['a', '.', 'x', 'y']]).1
    ['a', '.', 'x', 'y'] (by decide)

end FreeSurface
